import Mathlib

/-!
Shallow embedding of the advanced-vector repository (src/advanced-vector/vector.h):
a raw-storage owner `RawMemory` and a sequence manager `Vec` (the C++ `Vector<T>`).

Modelling conventions:
* machine addresses are modelled as `Option Nat` (a block identifier, `none` = nullptr);
* the live element region `[0, size)` of a vector is modelled as a `List α`
  (`elems`), and the capacity of the owned block as `cap : Nat`;
* the C++ standard algorithms `std::move` / `std::move_backward` that shift
  overlapping ranges are translated as sequential assignment loops, exactly in
  the order the algorithms perform them (forward resp. backward), so that the
  overlap behaviour of the source is captured, not assumed away;
* element constructions that may throw (the scenario of the exception-safety
  tests: an element type whose N-th construction throws) are modelled by
  numbering the constructions performed by a call and letting construction
  number `throwAt` throw; `throwAt = 0` means no construction ever throws,
  since numbering starts at 1.
-/

namespace AdvVec

/-- The raw-storage owner `RawMemory<T>`: an owning base address
(`buffer_`, modelled as an optional block id) and `capacity_`. -/
structure RawMemory where
  buffer : Option Nat
  capacity : Nat
deriving DecidableEq, Repr

/-- `RawMemory() = default`: null buffer, zero capacity. -/
def RawMemory.mk0 : RawMemory := ⟨none, 0⟩

/-- `RawMemory(size_t capacity)`: `Allocate` returns a fresh block when
`capacity != 0` and `nullptr` otherwise.  The fresh address is a parameter. -/
def RawMemory.alloc (n : Nat) (fresh : Nat) : RawMemory :=
  ⟨if n ≠ 0 then some fresh else none, n⟩

/-- `RawMemory(RawMemory&& other)`: copies `buffer_` and `capacity_` into the
new object, then sets `other.buffer_ = nullptr`.  (`other.capacity_` is NOT
cleared by the source.)  Returns (constructed object, source afterwards). -/
def RawMemory.moveCtor (other : RawMemory) : RawMemory × RawMemory :=
  (⟨other.buffer, other.capacity⟩, ⟨none, other.capacity⟩)

/-- `RawMemory::Swap`: exchanges `buffer_` and `capacity_`. -/
def RawMemory.swap (a b : RawMemory) : RawMemory × RawMemory := (b, a)

/-- `operator=(RawMemory&& rhs)`: for distinct objects, `Swap(rhs)`.
Returns (assigned-to object afterwards, source afterwards). -/
def RawMemory.moveAssign (dst rhs : RawMemory) : RawMemory × RawMemory :=
  RawMemory.swap dst rhs

/-- `~RawMemory()`: `Deallocate(buffer_)`, i.e. `operator delete(buffer_)`.
Returns the block that gets freed; `operator delete(nullptr)` frees nothing
(a safe no-op), hence `none` for a moved-from instance. -/
def RawMemory.destroyFrees (m : RawMemory) : Option Nat := m.buffer

/-- The sequence manager `Vector<T>`: live elements `[0, size)` as a list and
the capacity of the owned storage block.  `size` is `elems.length`. -/
structure Vec (α : Type) where
  elems : List α
  cap : Nat
deriving DecidableEq, Repr

variable {α : Type}

/-- `size_`. -/
def Vec.size (v : Vec α) : Nat := v.elems.length

/-- The documented representation invariant `0 ≤ size ≤ capacity`
(the lower bound is automatic for `Nat`). -/
def Vec.inv (v : Vec α) : Prop := v.size ≤ v.cap

instance (v : Vec α) : Decidable v.inv :=
  inferInstanceAs (Decidable (v.size ≤ v.cap))

/-- `Vector() = default`: empty, no storage. -/
def Vec.mk0 : Vec α := ⟨[], 0⟩

/-- `Vector(size_t size)`: allocates `size` slots and value-constructs
`size` elements (`uninitialized_value_construct_n`). -/
def Vec.sized [Inhabited α] (n : Nat) : Vec α := ⟨List.replicate n default, n⟩

/-- `Vector(const Vector& other)`: allocates `other.size_` slots and
copy-constructs `other.size_` elements (`uninitialized_copy_n`). -/
def Vec.copyCtor (other : Vec α) : Vec α := ⟨other.elems, other.size⟩

/-- `Vector::Swap`: swaps the storage blocks and the sizes. -/
def Vec.swap (a b : Vec α) : Vec α × Vec α := (b, a)

/-- `Vector(Vector&& other)`: the new object is default-constructed
(`data_` null, `size_ = 0`) and then `Swap(other)` runs.
Returns (constructed object, source afterwards). -/
def Vec.moveCtor (other : Vec α) : Vec α × Vec α :=
  Vec.swap Vec.mk0 other

/-- `operator=(Vector&& rhs)`: for distinct objects, `Swap(rhs)`.
Returns (assigned-to object afterwards, source afterwards). -/
def Vec.moveAssign (dst rhs : Vec α) : Vec α × Vec α :=
  Vec.swap dst rhs

/-- `operator=(const Vector& rhs)` for distinct objects: if
`rhs.size_ > data_.Capacity()` build a copy and swap it in (capacity becomes
`rhs.size_`); otherwise copy over the common prefix and then either destroy
the excess tail or copy-construct the missing tail (capacity unchanged),
finally `size_ = rhs.size_`. -/
def Vec.copyAssign (dst rhs : Vec α) : Vec α :=
  if dst.cap < rhs.size then ⟨rhs.elems, rhs.size⟩
  else ⟨rhs.elems, dst.cap⟩

/-- `PopBack`: destroys `data_[size_ - 1]` and decrements `size_`.
Precondition (assert): `size_ != 0`. -/
def Vec.popBack (v : Vec α) : Vec α := ⟨v.elems.dropLast, v.cap⟩

/-- `Reserve(new_capacity)`: no-op when `new_capacity <= Capacity()`;
otherwise allocates a block of exactly `new_capacity` slots, relocates the
`size_` live elements into it (`InitializeDataUsingOtherData`, which
value-preservingly moves or copies them), destroys the old elements and swaps
the blocks. -/
def Vec.reserve (v : Vec α) (n : Nat) : Vec α :=
  if n ≤ v.cap then v else ⟨v.elems, n⟩

/-- `Resize(new_size)`: shrinks by destroying the tail, or grows by
`Reserve(new_size)` followed by value-constructing the missing tail. -/
def Vec.resize [Inhabited α] (v : Vec α) (n : Nat) : Vec α :=
  if n < v.size then ⟨v.elems.take n, v.cap⟩
  else
    let r := v.reserve n
    ⟨r.elems ++ List.replicate (n - v.size) default, r.cap⟩

/-- `std::move(buf+f, buf+l, buf+d)` (forward shift), as the sequential
assignment loop the algorithm performs: slot `d` receives slot `f`, then
slot `d+1` receives slot `f+1`, and so on, each read seeing the writes made
so far. -/
def moveForward [Inhabited α] (buf : List α) (f l d : Nat) : List α :=
  if _h : l ≤ f then buf
  else moveForward (buf.set d (buf.getD f default)) (f + 1) l (d + 1)
termination_by l - f
decreasing_by omega

/-- `std::move_backward(buf+f, buf+l, buf+d)` (backward shift), as the
sequential assignment loop the algorithm performs: slot `d-1` receives slot
`l-1`, then slot `d-2` receives slot `l-2`, and so on, each read seeing the
writes made so far. -/
def moveBackward [Inhabited α] (buf : List α) (f l d : Nat) : List α :=
  if _h : l ≤ f then buf
  else moveBackward (buf.set (d - 1) (buf.getD (l - 1) default)) f (l - 1) (d - 1)
termination_by l - f
decreasing_by omega

/-- Relocation operation selected by `InitializeDataUsingOtherData`. -/
inductive RelocOp where
  | move
  | copy
deriving DecidableEq, Repr

/-- The `if constexpr` condition of `InitializeDataUsingOtherData`:
move when `std::is_nothrow_move_constructible_v<T>` holds or
`std::is_copy_constructible_v<T>` fails, otherwise copy.  The two trait
values are passed as booleans. -/
def relocChoice (nothrowMove copyConstructible : Bool) : RelocOp :=
  if nothrowMove || !copyConstructible then RelocOp.move else RelocOp.copy

/-- `InitializeDataUsingOtherData(start_from, start_to, count)`: relocates the
`count` source elements into the destination, applying to each of them the one
operation selected by the `if constexpr` on the element type's traits
(`uninitialized_move_n` in the move branch, `uninitialized_copy_n` in the copy
branch; both produce value-equal elements in the destination).  Returns the
destination contents together with the per-element trace of operations used. -/
def initializeDataUsingOtherData (nothrowMove copyConstructible : Bool)
    (src : List α) : List α × List RelocOp :=
  if nothrowMove || !copyConstructible then
    (src, src.map fun _ => RelocOp.move)
  else
    (src, src.map fun _ => RelocOp.copy)

/-- `std::uninitialized_copy_n` with throwing element constructions:
constructions performed by the surrounding call are numbered consecutively
starting from `k`, and construction number `throwAt` throws.  On success,
returns the constructed copies and the next construction number.  On a throw,
the algorithm itself destroys the partially constructed prefix and the
exception escapes; the error value is the pair
(elements it had constructed, elements it destroyed while unwinding). -/
def uninitCopyN (throwAt : Nat) : List α → Nat → Except (Nat × Nat) (List α × Nat)
  | [], k => Except.ok ([], k)
  | a :: rest, k =>
    if k = throwAt then Except.error (0, 0)
    else
      match uninitCopyN throwAt rest (k + 1) with
      | Except.ok (l, next) => Except.ok (a :: l, next)
      | Except.error (c, d) => Except.error (c + 1, d + 1)

/-- Observable outcome of a storage-growing call with throwing element
constructions: whether it threw, the vector observable afterwards, the
returned position (for `Emplace`), the number of element constructions
completed in the newly allocated block, the number of element destructions
performed in that block while handling the throw, and whether the new block's
bytes were released during unwinding. -/
structure ReallocResult (α : Type) where
  threw : Bool
  vec : Vec α
  retIndex : Option Nat
  newConstructed : Nat
  newDestroyed : Nat
  newFreed : Bool
deriving Repr

/-- `EmplaceWithRealloc(pos, args...)` with throwing constructions, in the
copying relocation mode (the mode in which relocation can throw).  Follows the
source line by line:
allocate `size_ == 0 ? 1 : size_ * 2` slots; construct the new element at
`pos_index` in the new block (construction number 1; if it throws, the
exception escapes and the local `RawMemory` destructor frees the new block);
relocate the prefix `[0, pos_index)` — on a throw the handler destroys
`new_data[pos_index]` and rethrows, the local destructor freeing the block;
relocate the suffix `[pos_index, size_)` into `[pos_index+1, …)` — on a throw
the handler runs `destroy_n(new_data.GetAddress(), pos_index + 1)` and
rethrows; on success destroy the old elements, swap the blocks, `++size_`,
and return `data_ + pos_index`. -/
def emplaceWithReallocT (throwAt : Nat) (v : Vec α) (i : Nat) (x : α) :
    ReallocResult α :=
  let newCap := if v.size = 0 then 1 else v.size * 2
  if 1 = throwAt then
    { threw := true, vec := v, retIndex := none,
      newConstructed := 0, newDestroyed := 0, newFreed := true }
  else
    match uninitCopyN throwAt (v.elems.take i) 2 with
    | Except.error (c, d) =>
      { threw := true, vec := v, retIndex := none,
        newConstructed := 1 + c, newDestroyed := d + 1, newFreed := true }
    | Except.ok (pre, k) =>
      match uninitCopyN throwAt (v.elems.drop i) k with
      | Except.error (c, d) =>
        { threw := true, vec := v, retIndex := none,
          newConstructed := 1 + pre.length + c,
          newDestroyed := d + (i + 1), newFreed := true }
      | Except.ok (suf, _) =>
        { threw := false, vec := ⟨pre ++ x :: suf, newCap⟩, retIndex := some i,
          newConstructed := 1 + pre.length + suf.length,
          newDestroyed := 0, newFreed := false }

/-- `Reserve(new_capacity)` with throwing constructions, in the copying
relocation mode.  No-op when `new_capacity <= Capacity()`.  Otherwise the
relocation runs with no try/catch of its own: on a throw the algorithm
destroys its partial prefix and the local `RawMemory` destructor frees the new
block; on success the old elements are destroyed and the blocks swapped. -/
def reserveT (throwAt : Nat) (v : Vec α) (n : Nat) : ReallocResult α :=
  if n ≤ v.cap then
    { threw := false, vec := v, retIndex := none,
      newConstructed := 0, newDestroyed := 0, newFreed := false }
  else
    match uninitCopyN throwAt v.elems 1 with
    | Except.error (c, d) =>
      { threw := true, vec := v, retIndex := none,
        newConstructed := c, newDestroyed := d, newFreed := true }
    | Except.ok (l, _) =>
      { threw := false, vec := ⟨l, n⟩, retIndex := none,
        newConstructed := l.length, newDestroyed := 0, newFreed := false }

/-- `EmplaceWithRealloc` on the non-throwing path (`throwAt = 0` never
matches a construction number): the vector it produces, paired with the
returned position `pos_index`. -/
def Vec.emplaceWithRealloc (v : Vec α) (i : Nat) (x : α) : Vec α × Nat :=
  ((emplaceWithReallocT 0 v i x).vec, i)

/-- `EmplaceWithoutRealloc(pos, args...)`: if `pos == cend()` the new element
is constructed directly at `data_ + size_`; otherwise a temporary is built,
a new slot at `data_ + size_` is move-constructed from `data_[size_ - 1]`,
`std::move_backward(data_ + pos_index, data_ + (size_ - 1), data_ + size_)`
shifts the middle one slot right, and the temporary is move-assigned into
`data_[pos_index]`.  Returns the vector and `pos_index`. -/
def Vec.emplaceWithoutRealloc [Inhabited α] (v : Vec α) (i : Nat) (x : α) :
    Vec α × Nat :=
  if i = v.size then
    (⟨v.elems ++ [x], v.cap⟩, i)
  else
    let buf1 := v.elems ++ [v.elems.getLastD default]
    let buf2 := moveBackward buf1 i (v.size - 1) v.size
    (⟨buf2.set i x, v.cap⟩, i)

/-- `Emplace(pos, args...)`: asserts `begin() <= pos <= end()` and dispatches
on `size_ == Capacity()`. -/
def Vec.emplace [Inhabited α] (v : Vec α) (i : Nat) (x : α) : Vec α × Nat :=
  if v.size = v.cap then v.emplaceWithRealloc i x
  else v.emplaceWithoutRealloc i x

/-- `Insert(pos, value)`: forwards to `Emplace`. -/
def Vec.insert [Inhabited α] (v : Vec α) (i : Nat) (x : α) : Vec α × Nat :=
  v.emplace i x

/-- `EmplaceBack(args...)`: `Emplace(cend(), args...)`, returning a reference
to (here: the position of) the new element. -/
def Vec.emplaceBack [Inhabited α] (v : Vec α) (x : α) : Vec α × Nat :=
  v.emplace v.size x

/-- `PushBack(value)`: forwards to `EmplaceBack`. -/
def Vec.pushBack [Inhabited α] (v : Vec α) (x : α) : Vec α :=
  (v.emplaceBack x).1

/-- `Erase(pos)`: asserts `begin() <= pos < end()`, shifts
`[pos+1, end())` one slot left with `std::move`, then `PopBack()`.
Returns the vector and the returned position `pos_index`. -/
def Vec.erase [Inhabited α] (v : Vec α) (i : Nat) : Vec α × Nat :=
  let buf := moveForward v.elems (i + 1) v.size i
  ((Vec.popBack ⟨buf, v.cap⟩), i)

/-- Appending `n` copies of `x` one `PushBack` at a time, starting from the
default-constructed vector; also counts how many of the appends reallocated
(took the `size_ == Capacity()` branch of `Emplace`). -/
def Vec.appendN [Inhabited α] (x : α) : Nat → Vec α × Nat
  | 0 => (Vec.mk0, 0)
  | n + 1 =>
    let p := Vec.appendN x n
    (p.1.pushBack x, p.2 + if p.1.size = p.1.cap then 1 else 0)

/-! ### Helper lemmas -/

/-- A successful `uninitCopyN` copies exactly its source and advances the
construction counter by the source length. -/
theorem uninitCopyN_ok {t : Nat} :
    ∀ (src : List α) (k : Nat) {l : List α} {n : Nat},
      uninitCopyN t src k = Except.ok (l, n) → l = src ∧ n = k + src.length
  | [], k, l, n, h => by
    simp only [uninitCopyN, Except.ok.injEq, Prod.mk.injEq] at h
    simp [← h.1, ← h.2]
  | a :: rest, k, l, n, h => by
    simp only [uninitCopyN] at h
    split at h
    · exact absurd h (by simp)
    · split at h
      next l2 n2 heq =>
        obtain ⟨h1, h2⟩ := uninitCopyN_ok rest (k + 1) heq
        simp only [Except.ok.injEq, Prod.mk.injEq] at h
        subst h1
        constructor
        · rw [← h.1]
        · rw [← h.2, h2, List.length_cons]; omega
      next => exact absurd h (by simp)

/-- A throwing `uninitCopyN` destroys exactly the elements it had
constructed. -/
theorem uninitCopyN_error {t : Nat} :
    ∀ (src : List α) (k : Nat) {c d : Nat},
      uninitCopyN t src k = Except.error (c, d) → c = d
  | [], _, _, _, h => by simp [uninitCopyN] at h
  | a :: rest, k, c, d, h => by
    simp only [uninitCopyN] at h
    split at h
    · simp only [Except.error.injEq, Prod.mk.injEq] at h
      omega
    · split at h
      next => exact absurd h (by simp)
      next c2 d2 heq =>
        have := uninitCopyN_error rest (k + 1) heq
        simp only [Except.error.injEq, Prod.mk.injEq] at h
        omega

/-- With `throwAt = 0` no construction number ever matches, so
`uninitCopyN` succeeds (construction numbering starts at 1). -/
theorem uninitCopyN_zero :
    ∀ (src : List α) (k : Nat), 0 < k →
      uninitCopyN 0 src k = Except.ok (src, k + src.length)
  | [], k, _ => by simp [uninitCopyN]
  | a :: rest, k, hk => by
    rw [uninitCopyN, if_neg (by omega), uninitCopyN_zero rest (k + 1) (by omega)]
    simp only [List.length_cons]
    congr 2
    omega

/-- Effect of the backward overlapping shift: `moveBackward buf f l (l+1)`
shifts slots `[f, l)` one slot to the right (into `[f+1, l+1)`), keeping
slots `[0, f]` and `[l+1, …)`; the backward write order makes every read
happen before the write of the same slot. -/
theorem moveBackward_shift [Inhabited α] :
    ∀ (n : Nat) (buf : List α) (f l d : Nat), l - f = n → f ≤ l →
      l < buf.length → d = l + 1 →
      moveBackward buf f l d =
        buf.take (f + 1) ++ (buf.drop f).take (l - f) ++ buf.drop (l + 1)
  | 0, buf, f, l, d, hn, hfl, hl, hd => by
    have hlf : l = f := by omega
    subst hlf hd
    rw [moveBackward, dif_pos (Nat.le_refl l)]
    simp [List.take_append_drop]
  | n + 1, buf, f, l, d, hn, hfl, hl, hd => by
    have hfl2 : f < l := by omega
    have hl1 : l - 1 < buf.length := by omega
    have hc : buf.getD (l - 1) default = buf[l - 1] := by
      simp [List.getD_eq_getElem?_getD, List.getElem?_eq_getElem hl1]
    subst hd
    rw [moveBackward, dif_neg (by omega)]
    simp only [Nat.add_sub_cancel]
    rw [moveBackward_shift n (buf.set l (buf.getD (l - 1) default)) f (l - 1)
      l (by omega) (by omega) (by simpa using hl1) (by omega)]
    have e1 : (buf.set l (buf.getD (l - 1) default)).take (f + 1) =
        buf.take (f + 1) := by
      rw [List.set_take]
      exact List.set_eq_of_length_le (by simp; omega)
    have e2 : (buf.set l (buf.getD (l - 1) default)).drop f =
        (buf.drop f).set (l - f) (buf.getD (l - 1) default) := by
      rw [List.drop_set, if_neg (by omega)]
    have e3 : ((buf.drop f).set (l - f) (buf.getD (l - 1) default)).take
          ((l - 1) - f) = (buf.drop f).take ((l - 1) - f) :=
      List.take_set_of_lt _ _ (by omega)
    have e4 : (buf.set l (buf.getD (l - 1) default)).drop ((l - 1) + 1) =
        buf[l - 1] :: buf.drop (l + 1) := by
      have hll : (l - 1) + 1 = l := by omega
      rw [hll, List.drop_set, if_neg (by omega), Nat.sub_self,
        List.drop_eq_getElem_cons hl, List.set_cons_zero, hc]
    have e5 : (buf.drop f).take (l - f) =
        (buf.drop f).take ((l - 1) - f) ++ [buf[l - 1]] := by
      have hlf1 : l - f = ((l - 1) - f) + 1 := by omega
      rw [hlf1, List.take_succ, List.getElem?_drop]
      have hfi : f + (l - 1 - f) = l - 1 := by omega
      rw [hfi, List.getElem?_eq_getElem hl1]
      rfl
    rw [e1, e2, e3, e4, e5]
    simp

/-- Effect of the forward overlapping shift: `moveForward buf f l (f-1)`
shifts slots `[f, l)` one slot to the left (into `[f-1, l-1)`), keeping slots
`[0, f-1)` and `[l-1, …)`; the forward write order makes every read happen
before the write of the same slot. -/
theorem moveForward_shift [Inhabited α] :
    ∀ (n : Nat) (buf : List α) (f l d : Nat), l - f = n → 1 ≤ f → f ≤ l →
      l ≤ buf.length → d = f - 1 →
      moveForward buf f l d =
        buf.take (f - 1) ++ (buf.drop f).take (l - f) ++ buf.drop (l - 1)
  | 0, buf, f, l, d, hn, hf1, hfl, hl, hd => by
    have hlf : l = f := by omega
    subst hlf hd
    rw [moveForward, dif_pos (Nat.le_refl l)]
    simp [List.take_append_drop]
  | n + 1, buf, f, l, d, hn, hf1, hfl, hl, hd => by
    have hfl2 : f < l := by omega
    have hfb : f < buf.length := by omega
    have hf1b : f - 1 < buf.length := by omega
    have hc : buf.getD f default = buf[f] := by
      simp [List.getD_eq_getElem?_getD, List.getElem?_eq_getElem hfb]
    subst hd
    rw [moveForward, dif_neg (by omega)]
    rw [moveForward_shift n (buf.set (f - 1) (buf.getD f default)) (f + 1) l
      ((f - 1) + 1) (by omega) (by omega) (by omega) (by simpa using hl)
      (by omega)]
    have e1 : (buf.set (f - 1) (buf.getD f default)).take (((f + 1)) - 1) =
        buf.take (f - 1) ++ [buf[f]] := by
      have hff : (f + 1) - 1 = (f - 1) + 1 := by omega
      rw [hff, List.set_take, List.take_succ, List.getElem?_eq_getElem hf1b]
      rw [List.set_append_right _ _ (by simp)]
      have hlen : (buf.take (f - 1)).length = f - 1 := by simp; omega
      rw [hlen, Nat.sub_self, hc]
      rfl
    have e2 : (buf.set (f - 1) (buf.getD f default)).drop (f + 1) =
        buf.drop (f + 1) := by
      rw [List.drop_set, if_pos (by omega)]
    have e3 : (buf.set (f - 1) (buf.getD f default)).drop (l - 1) =
        buf.drop (l - 1) := by
      rw [List.drop_set, if_pos (by omega)]
    have e4 : (buf.drop f).take (l - f) =
        buf[f] :: (buf.drop (f + 1)).take (l - (f + 1)) := by
      have hlf1 : l - f = (l - (f + 1)) + 1 := by omega
      rw [hlf1, List.drop_eq_getElem_cons hfb, List.take_succ_cons]
    rw [e1, e2, e3, e4]
    simp

/-- On the non-throwing path, `EmplaceWithRealloc` produces the insertion of
`x` at position `i` with the doubled (or initial 1) capacity, and returns
position `i`. -/
theorem emplaceWithRealloc_eq (v : Vec α) (i : Nat) (x : α) :
    v.emplaceWithRealloc i x =
      (⟨v.elems.take i ++ x :: v.elems.drop i,
        if v.size = 0 then 1 else v.size * 2⟩, i) := by
  have h2 := uninitCopyN_zero (v.elems.take i) 2 (by omega)
  have h3 := uninitCopyN_zero (v.elems.drop i)
    (2 + min i v.elems.length) (by omega)
  simp [Vec.emplaceWithRealloc, emplaceWithReallocT, h2, h3]

/-- `EmplaceWithoutRealloc` at a valid position produces the insertion of `x`
at position `i` with unchanged capacity, and returns position `i`. -/
theorem emplaceWithoutRealloc_eq [Inhabited α] (v : Vec α) (i : Nat) (x : α)
    (hi : i ≤ v.size) :
    v.emplaceWithoutRealloc i x =
      (⟨v.elems.take i ++ x :: v.elems.drop i, v.cap⟩, i) := by
  simp only [Vec.size] at hi
  rw [Vec.emplaceWithoutRealloc]
  by_cases h : i = v.size
  · rw [if_pos h]
    simp only [Vec.size] at h
    subst h
    rw [List.take_of_length_le (Nat.le_refl _),
      List.drop_of_length_le (Nat.le_refl _)]
  · rw [if_neg h]
    simp only [Vec.size] at h ⊢
    have hi2 : i < v.elems.length := by omega
    have hs1 : v.elems.length - 1 < v.elems.length := by omega
    have hlast : v.elems.getLastD default = v.elems.get ⟨v.elems.length - 1, hs1⟩ := by
      rw [List.getLastD_eq_getLast?, List.getLast?_eq_getElem?,
        List.getElem?_eq_getElem hs1]
      rfl
    rw [moveBackward_shift (v.elems.length - 1 - i) _ i (v.elems.length - 1)
      v.elems.length (by omega) (by omega) (by simp; omega) (by omega)]
    have e1 : (v.elems ++ [v.elems.getLastD default]).take (i + 1) =
        v.elems.take (i + 1) :=
      List.take_append_of_le_length (by omega)
    have e2 : (v.elems ++ [v.elems.getLastD default]).drop i =
        v.elems.drop i ++ [v.elems.getLastD default] :=
      List.drop_append_of_le_length (by omega)
    have e3 : (v.elems.drop i ++ [v.elems.getLastD default]).take
          (v.elems.length - 1 - i) = (v.elems.drop i).take (v.elems.length - 1 - i) :=
      List.take_append_of_le_length (by simp; omega)
    have e4 : (v.elems ++ [v.elems.getLastD default]).drop
          ((v.elems.length - 1) + 1) = [v.elems.getLastD default] :=
      List.drop_left' (by omega)
    rw [e1, e2, e3, e4]
    have e5 : (v.elems.take (i + 1)).set i x = v.elems.take i ++ [x] := by
      rw [List.take_succ, List.getElem?_eq_getElem hi2,
        List.set_append_right _ _ (by simp)]
      have hlen : (v.elems.take i).length = i := by simp; omega
      rw [hlen, Nat.sub_self]
      rfl
    have e6 : (v.elems.drop i).take (v.elems.length - 1 - i) ++
          [v.elems.getLastD default] = v.elems.drop i := by
      have h1 : (v.elems.drop i).take (v.elems.length - i) = v.elems.drop i :=
        List.take_of_length_le (by simp)
      have h2 : v.elems.length - i = (v.elems.length - 1 - i) + 1 := by omega
      have h3 : i + (v.elems.length - 1 - i) = v.elems.length - 1 := by omega
      conv_rhs => rw [← h1, h2]
      rw [List.take_succ, List.getElem?_drop, h3,
        List.getElem?_eq_getElem hs1, hlast]
      rfl
    rw [List.append_assoc, List.set_append_left _ _ (by simp; omega),
      e5, e6, List.append_assoc]
    simp

/-- `Emplace` at a valid position inserts `x` at position `i`; the capacity
doubles (or becomes 1) exactly when the vector was full. -/
theorem emplace_eq [Inhabited α] (v : Vec α) (i : Nat) (x : α)
    (hi : i ≤ v.size) :
    v.emplace i x =
      (⟨v.elems.take i ++ x :: v.elems.drop i,
        if v.size = v.cap then (if v.size = 0 then 1 else v.size * 2)
        else v.cap⟩, i) := by
  rw [Vec.emplace]
  by_cases h : v.size = v.cap
  · rw [if_pos h, emplaceWithRealloc_eq, if_pos h]
  · rw [if_neg h, emplaceWithoutRealloc_eq v i x hi, if_neg h]

/-- `PushBack` appends `x`; the capacity doubles (or becomes 1) exactly when
the vector was full. -/
theorem pushBack_eq [Inhabited α] (v : Vec α) (x : α) :
    v.pushBack x =
      ⟨v.elems ++ [x],
        if v.size = v.cap then (if v.size = 0 then 1 else v.size * 2)
        else v.cap⟩ := by
  rw [Vec.pushBack, Vec.emplaceBack, emplace_eq v v.size x (Nat.le_refl _)]
  simp [Vec.size, List.take_of_length_le, List.drop_of_length_le]

/-- `Erase` at a valid position removes the element at position `i` keeping
all others in order, and returns position `i`. -/
theorem erase_eq [Inhabited α] (v : Vec α) (i : Nat) (hi : i < v.size) :
    v.erase i = (⟨v.elems.take i ++ v.elems.drop (i + 1), v.cap⟩, i) := by
  simp only [Vec.size] at hi
  rw [Vec.erase]
  simp only [Vec.size]
  have hs1 : v.elems.length - 1 < v.elems.length := by omega
  rw [moveForward_shift (v.elems.length - (i + 1)) _ (i + 1) v.elems.length i
    (by omega) (by omega) (by omega) (Nat.le_refl _) (by omega)]
  have e1 : (v.elems.drop (i + 1)).take (v.elems.length - (i + 1)) =
      v.elems.drop (i + 1) :=
    List.take_of_length_le (by simp)
  have e2 : v.elems.drop (v.elems.length - 1) =
      [v.elems.get ⟨v.elems.length - 1, hs1⟩] := by
    rw [List.drop_eq_getElem_cons hs1, List.drop_of_length_le (by omega)]
    rfl
  rw [e1, e2]
  have h1 : (i + 1) - 1 = i := by omega
  rw [h1, Vec.popBack]
  rw [List.dropLast_concat]

/-! ### Lemmas about the throwing reallocation paths -/

/-- If `EmplaceWithRealloc` throws: the vector is unchanged, the new block is
freed, and every element constructed in it was destroyed. -/
theorem emplaceWithReallocT_throw (t : Nat) (v : Vec α) (i : Nat) (x : α)
    (hi : i ≤ v.size) (h : (emplaceWithReallocT t v i x).threw = true) :
    (emplaceWithReallocT t v i x).vec = v ∧
    (emplaceWithReallocT t v i x).newFreed = true ∧
    (emplaceWithReallocT t v i x).newConstructed =
      (emplaceWithReallocT t v i x).newDestroyed := by
  simp only [Vec.size] at hi
  by_cases h1 : (1 : Nat) = t
  · simp [emplaceWithReallocT, h1]
  · cases hE1 : uninitCopyN t (v.elems.take i) 2 with
    | error cd =>
      obtain ⟨c, d⟩ := cd
      have hcd := uninitCopyN_error _ _ hE1
      simp [emplaceWithReallocT, h1, hE1]
      omega
    | ok p =>
      obtain ⟨pre, k⟩ := p
      obtain ⟨hpre, hk⟩ := uninitCopyN_ok _ _ hE1
      cases hE2 : uninitCopyN t (v.elems.drop i) k with
      | error cd =>
        obtain ⟨c, d⟩ := cd
        have hcd := uninitCopyN_error _ _ hE2
        simp [emplaceWithReallocT, h1, hE1, hE2]
        subst hpre
        rw [List.length_take]
        omega
      | ok q =>
        simp [emplaceWithReallocT, h1, hE1, hE2] at h

/-- If `Reserve` throws: the vector is unchanged, the new block is freed, and
every element constructed in it was destroyed. -/
theorem reserveT_throw (t : Nat) (v : Vec α) (n : Nat)
    (h : (reserveT t v n).threw = true) :
    (reserveT t v n).vec = v ∧
    (reserveT t v n).newFreed = true ∧
    (reserveT t v n).newConstructed = (reserveT t v n).newDestroyed := by
  by_cases hn : n ≤ v.cap
  · simp [reserveT, hn] at h
  · cases hE : uninitCopyN t v.elems 1 with
    | error cd =>
      obtain ⟨c, d⟩ := cd
      have hcd := uninitCopyN_error _ _ hE
      simp [reserveT, hn, hE]
      omega
    | ok p =>
      simp [reserveT, hn, hE] at h

/-- `PushBack` increments the size by one. -/
theorem pushBack_size [Inhabited α] (v : Vec α) (x : α) :
    (v.pushBack x).size = v.size + 1 := by
  rw [pushBack_eq]
  simp [Vec.size]

/-- The capacity after `PushBack`. -/
theorem pushBack_cap [Inhabited α] (v : Vec α) (x : α) :
    (v.pushBack x).cap =
      if v.size = v.cap then (if v.size = 0 then 1 else v.size * 2)
      else v.cap := by
  rw [pushBack_eq]

/-- After `n` appends starting from the default-constructed vector: the size
is `n`, the capacity is the value reached from the empty capacity by the
doubling chain (`0` for `n = 0`, else `2 ^ ⌈log₂ n⌉`), and the number of
appends that reallocated is `0` for `n = 0`, else `⌈log₂ n⌉ + 1`. -/
theorem appendN_spec [Inhabited α] (x : α) :
    ∀ n : Nat,
      (Vec.appendN x n : Vec α × Nat).1.size = n ∧
      (Vec.appendN x n : Vec α × Nat).1.cap =
        (if n = 0 then 0 else 2 ^ Nat.clog 2 n) ∧
      (Vec.appendN x n : Vec α × Nat).2 =
        (if n = 0 then 0 else Nat.clog 2 n + 1)
  | 0 => by simp [Vec.appendN, Vec.mk0, Vec.size]
  | n + 1 => by
    obtain ⟨hsize, hcap, hcount⟩ := appendN_spec x n
    simp only [Vec.appendN]
    by_cases hn : n = 0
    · subst hn
      simp [hsize, hcap, hcount, pushBack_eq, Vec.appendN,
        Vec.mk0, Vec.size, Nat.clog_one_right]
    · have hle : n ≤ 2 ^ Nat.clog 2 n := Nat.le_pow_clog (by norm_num) n
      by_cases hfull : n = 2 ^ Nat.clog 2 n
      · have h1 : Nat.clog 2 (n + 1) = Nat.clog 2 n + 1 := by
          have ha : Nat.clog 2 n < Nat.clog 2 (n + 1) :=
            (Nat.pow_lt_iff_lt_clog (by norm_num)).mp (by omega)
          have hb : Nat.clog 2 (n + 1) ≤ Nat.clog 2 n + 1 :=
            (Nat.le_pow_iff_clog_le (by norm_num)).mp
              (by rw [pow_succ]; omega)
          omega
        refine ⟨?_, ?_, ?_⟩
        · rw [pushBack_size, hsize]
        · rw [pushBack_cap, hsize, hcap, if_neg hn, if_pos hfull,
            if_neg (by omega : ¬ n + 1 = 0), h1, pow_succ, if_neg hn]
          omega
        · rw [hcount, if_neg hn, hsize, hcap, if_neg hn,
            if_neg (by omega : ¬ n + 1 = 0), h1, if_pos hfull]
      · have h1 : Nat.clog 2 (n + 1) = Nat.clog 2 n := by
          have ha : Nat.clog 2 n ≤ Nat.clog 2 (n + 1) :=
            Nat.clog_mono_right 2 (by omega)
          have hb : Nat.clog 2 (n + 1) ≤ Nat.clog 2 n :=
            (Nat.le_pow_iff_clog_le (by norm_num)).mp (by omega)
          omega
        refine ⟨?_, ?_, ?_⟩
        · rw [pushBack_size, hsize]
        · rw [pushBack_cap, hsize, hcap, if_neg hn, if_neg hfull,
            if_neg (by omega : ¬ n + 1 = 0), h1]
        · rw [hcount, if_neg hn, hsize, hcap, if_neg hn,
            if_neg (by omega : ¬ n + 1 = 0), h1, if_neg hfull]

/-! ### Claim theorems -/

/-- Claim C1: strong exception safety of the reallocating insertion path —
if `EmplaceWithRealloc`/`Insert` or `Reserve` triggers a reallocation and an
element construction or relocation during it throws, the exception propagates
and the sequence keeps its original size, capacity and element values, every
element constructed in the new block is destroyed, and the new block's bytes
are freed (no leak). -/
theorem insert_reserve_realloc_strong_guarantee
    (t1 t2 : Nat) (v w : Vec α) (i n : Nat) (x : α)
    (hi : i ≤ v.size)
    (h1 : (emplaceWithReallocT t1 v i x).threw = true)
    (h2 : (reserveT t2 w n).threw = true) :
    (emplaceWithReallocT t1 v i x).vec = v ∧
    (emplaceWithReallocT t1 v i x).newFreed = true ∧
    (emplaceWithReallocT t1 v i x).newConstructed =
      (emplaceWithReallocT t1 v i x).newDestroyed ∧
    (reserveT t2 w n).vec = w ∧
    (reserveT t2 w n).newFreed = true ∧
    (reserveT t2 w n).newConstructed = (reserveT t2 w n).newDestroyed := by
  obtain ⟨a1, a2, a3⟩ := emplaceWithReallocT_throw t1 v i x hi h1
  obtain ⟨b1, b2, b3⟩ := reserveT_throw t2 w n h2
  exact ⟨a1, a2, a3, b1, b2, b3⟩

/-- Witness for C1: an `Emplace` whose suffix relocation throws (third
construction) and a `Reserve` whose first relocation copy throws. -/
theorem insert_reserve_realloc_strong_guarantee_witness :
    (emplaceWithReallocT 3 (⟨[5, 6], 2⟩ : Vec Nat) 1 9).vec = ⟨[5, 6], 2⟩ ∧
    (emplaceWithReallocT 3 (⟨[5, 6], 2⟩ : Vec Nat) 1 9).newFreed = true ∧
    (emplaceWithReallocT 3 (⟨[5, 6], 2⟩ : Vec Nat) 1 9).newConstructed =
      (emplaceWithReallocT 3 (⟨[5, 6], 2⟩ : Vec Nat) 1 9).newDestroyed ∧
    (reserveT 1 (⟨[7], 1⟩ : Vec Nat) 4).vec = ⟨[7], 1⟩ ∧
    (reserveT 1 (⟨[7], 1⟩ : Vec Nat) 4).newFreed = true ∧
    (reserveT 1 (⟨[7], 1⟩ : Vec Nat) 4).newConstructed =
      (reserveT 1 (⟨[7], 1⟩ : Vec Nat) 4).newDestroyed :=
  insert_reserve_realloc_strong_guarantee 3 1 ⟨[5, 6], 2⟩ ⟨[7], 1⟩ 1 4 9
    (by decide) (by decide) (by decide)

/-- Claim C2: every public operation preserves the invariant
`0 ≤ size ≤ capacity`. -/
theorem invariant_preserved_by_all_operations [Inhabited α]
    (v w : Vec α) (n i j : Nat) (x : α)
    (hv : v.inv) (hw : w.inv) (hi : i ≤ v.size) (hj : j < v.size) :
    (Vec.mk0 : Vec α).inv ∧
    (Vec.sized n : Vec α).inv ∧
    v.copyCtor.inv ∧
    (Vec.copyAssign v w).inv ∧
    (v.moveCtor.1.inv ∧ v.moveCtor.2.inv) ∧
    ((Vec.moveAssign v w).1.inv ∧ (Vec.moveAssign v w).2.inv) ∧
    ((Vec.swap v w).1.inv ∧ (Vec.swap v w).2.inv) ∧
    (v.pushBack x).inv ∧
    v.popBack.inv ∧
    (v.resize n).inv ∧
    (v.reserve n).inv ∧
    (v.emplace i x).1.inv ∧
    (v.erase j).1.inv := by
  have hv2 : v.size ≤ v.cap := hv
  have hw2 : w.size ≤ w.cap := hw
  refine ⟨?_, ?_, ?_, ?_, ⟨hv, ?_⟩, ⟨hw, hv⟩, ⟨hw, hv⟩, ?_, ?_, ?_, ?_, ?_, ?_⟩
  · simp [Vec.inv, Vec.mk0, Vec.size]
  · simp [Vec.inv, Vec.sized, Vec.size]
  · simp [Vec.inv, Vec.copyCtor, Vec.size]
  · rw [Vec.copyAssign]
    split
    · simp [Vec.inv, Vec.size]
    · simp only [Vec.inv, Vec.size] at *
      omega
  · simp [Vec.inv, Vec.moveCtor, Vec.swap, Vec.mk0, Vec.size]
  · rw [pushBack_eq]
    simp only [Vec.inv, Vec.size] at *
    simp only [List.length_append, List.length_cons, List.length_nil]
    split
    · split <;> omega
    · omega
  · simp only [Vec.inv, Vec.popBack, Vec.size] at *
    simp only [List.length_dropLast]
    omega
  · simp only [Vec.inv, Vec.resize, Vec.reserve, Vec.size] at *
    split
    · simp only [List.length_take]
      omega
    · split
      · simp only [List.length_append, List.length_replicate]
        omega
      · simp only [List.length_append, List.length_replicate]
        omega
  · rw [Vec.reserve]
    split
    · exact hv
    · show v.elems.length ≤ n
      simp only [Vec.inv, Vec.size] at hv
      omega
  · rw [emplace_eq v i x hi]
    simp only [Vec.inv, Vec.size] at *
    simp only [List.length_append, List.length_cons, List.length_take,
      List.length_drop]
    split
    · split <;> omega
    · omega
  · rw [erase_eq v j hj]
    simp only [Vec.inv, Vec.size] at *
    simp only [List.length_append, List.length_take, List.length_drop]
    omega

/-- Witness for C2 at concrete inputs. -/
theorem invariant_preserved_by_all_operations_witness :
    (Vec.mk0 : Vec Nat).inv ∧
    (Vec.sized 2 : Vec Nat).inv ∧
    (⟨[1, 2], 3⟩ : Vec Nat).copyCtor.inv ∧
    (Vec.copyAssign (⟨[1, 2], 3⟩ : Vec Nat) ⟨[4], 2⟩).inv ∧
    ((⟨[1, 2], 3⟩ : Vec Nat).moveCtor.1.inv ∧
      (⟨[1, 2], 3⟩ : Vec Nat).moveCtor.2.inv) ∧
    ((Vec.moveAssign (⟨[1, 2], 3⟩ : Vec Nat) ⟨[4], 2⟩).1.inv ∧
      (Vec.moveAssign (⟨[1, 2], 3⟩ : Vec Nat) ⟨[4], 2⟩).2.inv) ∧
    ((Vec.swap (⟨[1, 2], 3⟩ : Vec Nat) ⟨[4], 2⟩).1.inv ∧
      (Vec.swap (⟨[1, 2], 3⟩ : Vec Nat) ⟨[4], 2⟩).2.inv) ∧
    ((⟨[1, 2], 3⟩ : Vec Nat).pushBack 9).inv ∧
    (⟨[1, 2], 3⟩ : Vec Nat).popBack.inv ∧
    ((⟨[1, 2], 3⟩ : Vec Nat).resize 2).inv ∧
    ((⟨[1, 2], 3⟩ : Vec Nat).reserve 2).inv ∧
    ((⟨[1, 2], 3⟩ : Vec Nat).emplace 1 9).1.inv ∧
    ((⟨[1, 2], 3⟩ : Vec Nat).erase 0).1.inv :=
  invariant_preserved_by_all_operations ⟨[1, 2], 3⟩ ⟨[4], 2⟩ 2 1 0 9
    (by decide) (by decide) (by decide) (by decide)

/-- Claim C3: growth policy — a reallocating insert picks capacity 1 from
capacity 0, else exactly double; appending `n > 0` elements one at a time
from an empty vector gives the smallest doubling-chain capacity `≥ n` and at
most `⌈log₂ n⌉ + 1` reallocations. -/
theorem growth_policy_doubling [Inhabited α] (v : Vec α) (i : Nat) (x : α)
    (n : Nat) (hfull : v.size = v.cap) (hn : 0 < n) :
    (v.emplaceWithRealloc i x).1.cap = (if v.cap = 0 then 1 else 2 * v.cap) ∧
    (Vec.appendN x n : Vec α × Nat).1.size = n ∧
    (Vec.appendN x n : Vec α × Nat).1.cap = 2 ^ Nat.clog 2 n ∧
    n ≤ 2 ^ Nat.clog 2 n ∧
    (∀ k, n ≤ 2 ^ k → 2 ^ Nat.clog 2 n ≤ 2 ^ k) ∧
    (Vec.appendN x n : Vec α × Nat).2 ≤ Nat.clog 2 n + 1 := by
  obtain ⟨h1, h2, h3⟩ := appendN_spec x n
  refine ⟨?_, h1, ?_, Nat.le_pow_clog (by norm_num) n, ?_, ?_⟩
  · rw [emplaceWithRealloc_eq]
    simp only [hfull]
    rcases Nat.eq_zero_or_pos v.cap with h | h <;> simp [h, Nat.mul_comm]
  · rw [h2, if_neg (by omega)]
  · intro k hk
    exact Nat.pow_le_pow_right (by norm_num)
      ((Nat.le_pow_iff_clog_le (by norm_num)).mp hk)
  · rw [h3, if_neg (by omega)]

/-- Witness for C3 at concrete inputs. -/
theorem growth_policy_doubling_witness :
    ((⟨[1, 2], 2⟩ : Vec Nat).emplaceWithRealloc 0 5).1.cap =
      (if (⟨[1, 2], 2⟩ : Vec Nat).cap = 0 then 1
        else 2 * (⟨[1, 2], 2⟩ : Vec Nat).cap) ∧
    (Vec.appendN (5 : Nat) 5).1.size = 5 ∧
    (Vec.appendN (5 : Nat) 5).1.cap = 2 ^ Nat.clog 2 5 ∧
    5 ≤ 2 ^ Nat.clog 2 5 ∧
    (∀ k, 5 ≤ 2 ^ k → 2 ^ Nat.clog 2 5 ≤ 2 ^ k) ∧
    (Vec.appendN (5 : Nat) 5).2 ≤ Nat.clog 2 5 + 1 :=
  growth_policy_doubling ⟨[1, 2], 2⟩ 0 5 5 (by decide) (by decide)

/-- Counterexample to claim C4: moving a vector into a NON-EMPTY destination
by move-assignment swaps the two states, so the source is left holding the
destination's former (non-empty) contents, not size 0 / capacity 0. -/
theorem vec_moveAssign_nonEmpty_dest_source_not_empty :
    ¬ ((Vec.moveAssign (⟨[1], 1⟩ : Vec Nat) ⟨[2, 3], 2⟩).2.size = 0 ∧
       (Vec.moveAssign (⟨[1], 1⟩ : Vec Nat) ⟨[2, 3], 2⟩).2.cap = 0) := by
  decide

/-- Claim C4 amended: move-construction and move-assignment are O(1)
ownership transfers via swap (the element list is transplanted wholesale, no
element is constructed); after move-construction the source has size 0 and
capacity 0; after move-assignment the source holds the destination's former
state, so it has size 0 and capacity 0 exactly when the destination was
empty with no storage. -/
theorem vec_move_transfer_via_swap (v w : Vec α) :
    v.moveCtor.1 = v ∧
    v.moveCtor.2.size = 0 ∧ v.moveCtor.2.cap = 0 ∧
    (Vec.moveAssign v w).1 = w ∧ (Vec.moveAssign v w).2 = v ∧
    ((Vec.moveAssign v w).2.size = 0 ∧ (Vec.moveAssign v w).2.cap = 0 ↔
      v.size = 0 ∧ v.cap = 0) :=
  ⟨rfl, rfl, rfl, rfl, rfl, Iff.rfl⟩

/-- Counterexample to claim C5: raw-storage move-assignment is a swap, so a
source moved into a destination that owned a block is left holding that
block — its base address is NOT cleared. -/
theorem rawMemory_moveAssign_source_keeps_dest_buffer :
    (RawMemory.moveAssign ⟨some 1, 2⟩ ⟨some 2, 3⟩).2.buffer ≠ none := by
  decide

/-- Claim C5 amended: raw-storage move-construction transfers the bytes in
constant time and nulls the source's base address (destroying the moved-from
instance then frees nothing — a safe no-op — though the capacity field keeps
its old value); move-assignment swaps the two owners, so the source receives
the destination's former buffer instead of being cleared. -/
theorem rawMemory_move_transfer (m d r : RawMemory) :
    m.moveCtor.1 = ⟨m.buffer, m.capacity⟩ ∧
    m.moveCtor.2.buffer = none ∧
    m.moveCtor.2.capacity = m.capacity ∧
    m.moveCtor.2.destroyFrees = none ∧
    RawMemory.mk0.destroyFrees = none ∧
    (RawMemory.moveAssign d r).1 = r ∧
    (RawMemory.moveAssign d r).2 = d :=
  ⟨rfl, rfl, rfl, rfl, rfl, rfl, rfl⟩

/-- Claim C6: relocation moves the elements when the element type's move
construction cannot throw or the type has no copy construction, and copies
otherwise; the operation is selected once per relocation call and applied
uniformly to every element. -/
theorem relocation_mode_selected_once_per_call (nm cc : Bool) (src : List α) :
    (initializeDataUsingOtherData nm cc src).1 = src ∧
    (initializeDataUsingOtherData nm cc src).2 =
      src.map (fun _ => relocChoice nm cc) ∧
    (relocChoice nm cc = RelocOp.move ↔ nm = true ∨ cc = false) := by
  unfold initializeDataUsingOtherData relocChoice
  cases nm <;> cases cc <;> simp

/-- Claim C7: a successful `Insert`/`Emplace` at position `i ≤ size` puts the
new element at `i` and shifts the tail right by exactly one slot in order;
`Erase` at `j < size` removes the element at `j` and shifts the tail left by
one slot in order, decreasing the size by one. -/
theorem insert_erase_order_preservation [Inhabited α] (v : Vec α) (i j : Nat)
    (x : α) (hi : i ≤ v.size) (hj : j < v.size) :
    (v.emplace i x).1.elems = v.elems.take i ++ x :: v.elems.drop i ∧
    (v.emplace i x).1.size = v.size + 1 ∧
    (v.erase j).1.elems = v.elems.take j ++ v.elems.drop (j + 1) ∧
    (v.erase j).1.size = v.size - 1 := by
  have he := emplace_eq v i x hi
  have hr := erase_eq v j hj
  simp only [Vec.size] at hi hj
  rw [he, hr]
  refine ⟨rfl, ?_, rfl, ?_⟩
  · show (v.elems.take i ++ x :: v.elems.drop i).length = v.elems.length + 1
    simp
    omega
  · show (v.elems.take j ++ v.elems.drop (j + 1)).length = v.elems.length - 1
    simp
    omega

/-- Witness for C7: the spec's own scenario `{10,20,30}`, insert 15 at 1,
erase at 0. -/
theorem insert_erase_order_preservation_witness :
    ((⟨[10, 20, 30], 5⟩ : Vec Nat).emplace 1 15).1.elems =
      [10, 20, 30].take 1 ++ 15 :: [10, 20, 30].drop 1 ∧
    ((⟨[10, 20, 30], 5⟩ : Vec Nat).emplace 1 15).1.size =
      (⟨[10, 20, 30], 5⟩ : Vec Nat).size + 1 ∧
    ((⟨[10, 20, 30], 5⟩ : Vec Nat).erase 0).1.elems =
      [10, 20, 30].take 0 ++ [10, 20, 30].drop 1 ∧
    ((⟨[10, 20, 30], 5⟩ : Vec Nat).erase 0).1.size =
      (⟨[10, 20, 30], 5⟩ : Vec Nat).size - 1 :=
  insert_erase_order_preservation ⟨[10, 20, 30], 5⟩ 1 0 15
    (by decide) (by decide)

/-- Claim C8: copy-construction yields a sequence of equal size whose
elements are element-wise equal to the source's, whatever the source's
capacity. -/
theorem copy_construct_roundtrip (v : Vec α) :
    v.copyCtor.elems = v.elems ∧ v.copyCtor.size = v.size :=
  ⟨rfl, rfl⟩

/-- Claim C9: `Reserve(n)` with `n` above the current capacity yields
capacity exactly `n`, preserving size and elements; `Reserve` with `n` at or
below the capacity changes nothing; `Resize(r)` growing past the capacity
yields capacity exactly `r`. -/
theorem reserve_resize_exact_capacity [Inhabited α] (v : Vec α) (n m r : Nat)
    (hv : v.inv) (hn : v.cap < n) (hm : m ≤ v.cap) (hr : v.cap < r) :
    (v.reserve n).cap = n ∧
    (v.reserve n).elems = v.elems ∧
    (v.reserve n).size = v.size ∧
    v.reserve m = v ∧
    (v.resize r).cap = r := by
  have hs : v.size ≤ v.cap := hv
  refine ⟨?_, ?_, ?_, ?_, ?_⟩
  · rw [Vec.reserve, if_neg (by omega)]
  · rw [Vec.reserve, if_neg (by omega)]
  · rw [Vec.reserve, if_neg (by omega)]
    rfl
  · rw [Vec.reserve, if_pos hm]
  · simp only [Vec.resize, Vec.reserve]
    rw [if_neg (by omega), if_neg (by omega)]

/-- Witness for C9 at concrete inputs. -/
theorem reserve_resize_exact_capacity_witness :
    ((⟨[1, 2], 3⟩ : Vec Nat).reserve 5).cap = 5 ∧
    ((⟨[1, 2], 3⟩ : Vec Nat).reserve 5).elems = [1, 2] ∧
    ((⟨[1, 2], 3⟩ : Vec Nat).reserve 5).size = (⟨[1, 2], 3⟩ : Vec Nat).size ∧
    (⟨[1, 2], 3⟩ : Vec Nat).reserve 2 = ⟨[1, 2], 3⟩ ∧
    ((⟨[1, 2], 3⟩ : Vec Nat).resize 7).cap = 7 :=
  reserve_resize_exact_capacity ⟨[1, 2], 3⟩ 5 2 7
    (by decide) (by decide) (by decide) (by decide)

/-- Claim C10: a successful `Insert`/`Emplace` returns the position of the
newly inserted element in the (possibly reallocated) storage, where the new
element indeed sits; `EmplaceBack` returns the appended element (at the old
size). -/
theorem emplace_returns_position_of_new_element [Inhabited α] (v : Vec α)
    (i : Nat) (x : α) (hi : i ≤ v.size) :
    (v.emplace i x).2 = i ∧
    ((v.emplace i x).1.elems)[i]? = some x ∧
    (v.emplaceBack x).2 = v.size ∧
    ((v.emplaceBack x).1.elems)[(v.emplaceBack x).2]? = some x := by
  have h1 := emplace_eq v i x hi
  have h2 := emplace_eq v v.size x (Nat.le_refl _)
  simp only [Vec.size] at hi
  rw [Vec.emplaceBack, h1, h2]
  refine ⟨rfl, ?_, rfl, ?_⟩
  · show (v.elems.take i ++ x :: v.elems.drop i)[i]? = some x
    have hti : (v.elems.take i).length = i := by simp [Nat.min_eq_left hi]
    rw [List.getElem?_append_right (le_of_eq hti), hti, Nat.sub_self]
    simp
  · show (v.elems.take v.size ++ x :: v.elems.drop v.size)[Vec.size v]? = some x
    have hts : (v.elems.take v.size).length = Vec.size v := by simp [Vec.size]
    rw [List.getElem?_append_right (le_of_eq hts), hts, Nat.sub_self]
    simp

/-- Witness for C10 at concrete inputs. -/
theorem emplace_returns_position_of_new_element_witness :
    ((⟨[10, 20, 30], 3⟩ : Vec Nat).emplace 1 7).2 = 1 ∧
    (((⟨[10, 20, 30], 3⟩ : Vec Nat).emplace 1 7).1.elems)[1]? = some 7 ∧
    ((⟨[10, 20, 30], 3⟩ : Vec Nat).emplaceBack 7).2 =
      (⟨[10, 20, 30], 3⟩ : Vec Nat).size ∧
    (((⟨[10, 20, 30], 3⟩ : Vec Nat).emplaceBack 7).1.elems)[
      ((⟨[10, 20, 30], 3⟩ : Vec Nat).emplaceBack 7).2]? = some 7 :=
  emplace_returns_position_of_new_element ⟨[10, 20, 30], 3⟩ 1 7 (by decide)

end AdvVec
